import Mathlib

/-!
Shallow embedding of the UnderstandPDF document-to-insights pipeline.

The definitions below are direct translations of the TypeScript source:
the chunking module (`estimateTokens`, `chunkText`), the embedding client
(`generateEmbeddings`), the processing pipeline (`processDocument`), and the
insight flow (`getInsightPlan`, `extractGroupInsights`,
`mergeAndCacheInsights`, `generateInsights`).  External effects (database
reads, storage downloads, HTTP calls to the embedding and generative model
services) are modelled by explicit environment records supplying each call's
outcome; loops become structural recursions; thrown JS exceptions become
`Except.error` values carrying the thrown message.
-/

namespace UPDF

-- ---------- Config (from the source constants) ----------

def CHUNK_SIZE : Nat := 800

def CHUNK_OVERLAP : Nat := 100

def EMBEDDING_BATCH_SIZE : Nat := 20

def CHUNKS_PER_GROUP : Nat := 10

-- ---------- Token estimate ----------

/-- `estimateTokens(text) = Math.ceil(text.length / 4)`. -/
def estimateTokens (text : String) : Nat :=
  (text.length + 3) / 4

-- ---------- Sentence splitting ----------

structure PageText where
  page : Nat
  text : String
deriving DecidableEq, Repr

structure Sentence where
  text : String
  page : Nat
deriving DecidableEq, Repr

/-- Does the (reversed) accumulated fragment end with terminal punctuation?
Mirrors the lookbehind `(?<=[.!?])` of the split regex. -/
def sentenceBoundary (acc : List Char) : Bool :=
  match acc with
  | p :: _ => p == '.' || p == '!' || p == '?'
  | [] => false

/-- Character-level rendering of `text.split(/(?<=[.!?])\s+/)`: a maximal
whitespace run immediately preceded by `.`, `!` or `?` separates fragments;
the punctuation stays with the left fragment, the whitespace run is consumed.
`acc` holds the current fragment reversed; `skipping` is true while inside a
separator's whitespace run. -/
def splitSentencesAux : List Char → List Char → Bool → List (List Char)
  | [], acc, _ => [acc.reverse]
  | c :: rest, acc, skipping =>
    if skipping && c.isWhitespace then
      splitSentencesAux rest acc true
    else if c.isWhitespace && sentenceBoundary acc then
      acc.reverse :: splitSentencesAux rest [] true
    else
      splitSentencesAux rest (c :: acc) false

def splitSentences (text : String) : List (List Char) :=
  splitSentencesAux text.toList [] false

/-- JS `String.prototype.trim`: strip whitespace from both ends. -/
def trimChars (cs : List Char) : List Char :=
  ((cs.dropWhile Char.isWhitespace).reverse.dropWhile Char.isWhitespace).reverse

/-- Sentences of one page: split its text, trim, drop empties, annotate with
the page number. -/
def pageSentences (pt : PageText) : List Sentence :=
  (splitSentences pt.text).filterMap fun part =>
    if (trimChars part).length > 0 then some ⟨String.mk (trimChars part), pt.page⟩ else none

/-- Flatten pages into one ordered sentence stream, each sentence annotated
with its source page; trimmed-empty fragments are dropped. -/
def buildSentences (pages : List PageText) : List Sentence :=
  pages.flatMap pageSentences

-- ---------- Chunking ----------

structure TextChunk where
  content : String
  page_start : Nat
  page_end : Nat
  token_count : Nat
deriving DecidableEq, Repr

/-- The backward overlap walk of `chunkText`: starting from the end of the
just-finalized chunk's sentence list, keep taking sentences while the running
token estimate stays within `CHUNK_OVERLAP`; stop at the first sentence that
would overflow.  Returns the selected trailing slice (in original order) and
its accumulated token estimate.  A sentence is kept exactly when every
sentence to its right was kept and adding it does not overflow. -/
def overlapWalk : List String → List String × Nat
  | [] => ([], 0)
  | s :: rest =>
    let w := overlapWalk rest
    if w.1.length = rest.length then
      let t := estimateTokens s
      if w.2 + t > CHUNK_OVERLAP then w
      else (s :: w.1, w.2 + t)
    else w

structure ChunkState where
  chunks : List TextChunk
  currentChunk : List String
  currentTokens : Nat
  chunkPageStart : Nat
  chunkPageEnd : Nat
deriving Repr

/-- One iteration of the `for (const sentence of sentences)` loop body. -/
def stepSentence (st : ChunkState) (sentence : Sentence) : ChunkState :=
  let sentenceTokens := estimateTokens sentence.text
  let st1 :=
    if st.currentTokens + sentenceTokens > CHUNK_SIZE ∧ st.currentChunk.length > 0 then
      let content := String.intercalate " " st.currentChunk
      let w := overlapWalk st.currentChunk
      { chunks := st.chunks ++
          [⟨content, st.chunkPageStart, st.chunkPageEnd, estimateTokens content⟩],
        currentChunk := w.1,
        currentTokens := w.2,
        chunkPageStart := sentence.page,
        chunkPageEnd := st.chunkPageEnd }
    else st
  { st1 with
      currentChunk := st1.currentChunk ++ [sentence.text],
      currentTokens := st1.currentTokens + sentenceTokens,
      chunkPageEnd := sentence.page }

def chunkLoop : ChunkState → List Sentence → ChunkState
  | st, [] => st
  | st, s :: rest => chunkLoop (stepSentence st s) rest

/-- `chunkText(pages)`: split page text into overlapping chunks of roughly
`CHUNK_SIZE` tokens, tracking the page span of each chunk. -/
def chunkText (pages : List PageText) : List TextChunk :=
  let sentences := buildSentences pages
  match sentences with
  | [] => []
  | s0 :: _ =>
    let fin := chunkLoop ⟨[], [], 0, s0.page, s0.page⟩ sentences
    if fin.currentChunk.length > 0 then
      let content := String.intercalate " " fin.currentChunk
      fin.chunks ++
        [⟨content, fin.chunkPageStart, fin.chunkPageEnd, estimateTokens content⟩]
    else fin.chunks

-- ---------- Embedding client ----------

/-- Embedding vectors are opaque payloads to the pipeline; their numeric
content is supplied by the service environment. -/
abbrev Vec := List Int

/-- The error thrown on a non-success HTTP response: it carries the HTTP
status and the response body. -/
structure EmbedError where
  status : Nat
  body : String
deriving DecidableEq, Repr

/-- Outcome of one `batchEmbedContents` request, supplied by the environment. -/
inductive EmbedResult where
  | okr (vectors : List Vec)
  | err (e : EmbedError)
deriving DecidableEq, Repr

/-- `generateEmbeddings`: issue the texts in consecutive slices of
`EMBEDDING_BATCH_SIZE`, sequentially; on the first non-success response throw
(the error carries status and body); otherwise concatenate the returned
vectors in order.  Also returns the list of request batches issued, in order. -/
def generateEmbeddings (texts : List String) (resp : List String → EmbedResult) :
    Except EmbedError (List Vec) × List (List String) :=
  if h : texts = [] then (.ok [], [])
  else
    match resp (texts.take EMBEDDING_BATCH_SIZE) with
    | .err e => (.error e, [texts.take EMBEDDING_BATCH_SIZE])
    | .okr vecs =>
      match generateEmbeddings (texts.drop EMBEDDING_BATCH_SIZE) resp with
      | (.error e, reqs) => (.error e, texts.take EMBEDDING_BATCH_SIZE :: reqs)
      | (.ok vs, reqs) => (.ok (vecs ++ vs), texts.take EMBEDDING_BATCH_SIZE :: reqs)
termination_by texts.length
decreasing_by
  have : texts.length ≠ 0 := fun hl => h (List.length_eq_zero.mp hl)
  simp only [List.length_drop, EMBEDDING_BATCH_SIZE]
  omega

/-- The batching schedule on its own: consecutive slices of
`EMBEDDING_BATCH_SIZE` texts, in input order. -/
def embedBatches (texts : List String) : List (List String) :=
  if h : texts = [] then []
  else texts.take EMBEDDING_BATCH_SIZE ::
    embedBatches (texts.drop EMBEDDING_BATCH_SIZE)
termination_by texts.length
decreasing_by
  have : texts.length ≠ 0 := fun hl => h (List.length_eq_zero.mp hl)
  simp only [List.length_drop, EMBEDDING_BATCH_SIZE]
  omega

-- ---------- Insight data model ----------

/-- A local source citation; the `section` field of the source is named
`sectionLabel` here because `section` is reserved. -/
structure Source where
  page : Nat
  sectionLabel : String
  quote : String
deriving DecidableEq, Repr

structure ResearchDirection where
  category : String
  title : String
  description : String
deriving DecidableEq, Repr

structure Insight where
  id : String
  title : String
  description : String
  sources : List Source
  researchDirections : List ResearchDirection
deriving DecidableEq, Repr

/-- Model output before ID assignment. -/
structure RawInsight where
  title : String
  description : String
  sources : List Source
  researchDirections : List ResearchDirection
deriving DecidableEq, Repr

def insightId (documentId : String) (index : Nat) : String :=
  "insight-" ++ documentId.take 8 ++ "-" ++ toString index

def groupInsightId (documentId : String) (groupIndex index : Nat) : String :=
  "insight-" ++ documentId.take 8 ++ "-g" ++ toString groupIndex ++ "-" ++ toString index

/-- The re-ID map of the merge function's fallback/small paths:
`allInsights.map((item, index) => ({...item, id: insightId(index)}))`,
with the running index starting at `k`. -/
def reIdFrom (documentId : String) (k : Nat) : List Insight → List Insight
  | [] => []
  | i :: rest => { i with id := insightId documentId k } :: reIdFrom documentId (k + 1) rest

/-- `assignIds(raw, documentId)`: convert raw insights to `Insight`s with
sequential document-scoped IDs. -/
def assignIdsFrom (documentId : String) (k : Nat) : List RawInsight → List Insight
  | [] => []
  | r :: rest =>
    { id := insightId documentId k,
      title := r.title,
      description := r.description,
      sources := r.sources,
      researchDirections := r.researchDirections } :: assignIdsFrom documentId (k + 1) rest

def assignIds (raw : List RawInsight) (documentId : String) : List Insight :=
  assignIdsFrom documentId 0 raw

/-- What a generative-model call comes back as, after `.text().trim()` and
`JSON.parse`: an empty text, a non-empty text that is not valid JSON (the
parse throws with message `msg`), or a parsed array of raw insights. -/
inductive ModelResp where
  | empty
  | malformed (msg : String)
  | parsed (raw : List RawInsight)

-- ---------- Merge ----------

structure MergeOutcome where
  result : Except String (List Insight)
  modelCalls : Nat
  cached : Option (List Insight)
deriving Repr

/-- `mergeAndCacheInsights(documentId, allInsights)`: for ≤ 6 insights skip
the model, re-ID and cache; otherwise call the merge model once — an empty
response falls back to caching the re-IDed unmerged list, an unparseable
response throws (nothing cached), a parsed response is re-IDed and cached. -/
def mergeAndCacheInsights (documentId : String) (allInsights : List Insight)
    (resp : ModelResp) : MergeOutcome :=
  if allInsights.length ≤ 6 then
    let final := reIdFrom documentId 0 allInsights
    ⟨.ok final, 0, some final⟩
  else
    match resp with
    | .empty =>
      let final := reIdFrom documentId 0 allInsights
      ⟨.ok final, 1, some final⟩
    | .malformed msg => ⟨.error msg, 1, none⟩
    | .parsed merged =>
      let final := assignIds merged documentId
      ⟨.ok final, 1, some final⟩

-- ---------- Plan ----------

structure InsightPlan where
  totalChunks : Nat
  totalGroups : Nat
deriving DecidableEq, Repr

/-- The chunk-count query result: `.error` if the query errored, otherwise
the (possibly null) count. -/
def getInsightPlan (countResult : Except Unit (Option Nat)) : Option InsightPlan :=
  match countResult with
  | .error _ => none
  | .ok none => none
  | .ok (some count) =>
    if count = 0 then none
    else some ⟨count, (count + CHUNKS_PER_GROUP - 1) / CHUNKS_PER_GROUP⟩

-- ---------- Group extraction ----------

structure ChunkRow where
  chunk_index : Nat
  content : String
  page_start : Nat
  page_end : Nat
deriving DecidableEq, Repr

/-- Environment of one `extractGroupInsights` call: whether the chunk fetch
errored, the document's ordered chunk table (the `.range` query selects a
slice of it), and the model response for the one potential call. -/
structure ExtractEnv where
  fetchErr : Bool
  table : List ChunkRow
  modelResp : ModelResp

structure ExtractOutcome where
  result : Except String (List Insight)
  modelCalls : Nat

def assignGroupIdsFrom (documentId : String) (groupIndex k : Nat) :
    List RawInsight → List Insight
  | [] => []
  | r :: rest =>
    { id := groupInsightId documentId groupIndex k,
      title := r.title,
      description := r.description,
      sources := r.sources,
      researchDirections := r.researchDirections } ::
      assignGroupIdsFrom documentId groupIndex (k + 1) rest

/-- `extractGroupInsights(documentId, groupIndex, totalGroups)`: fetch the
group's chunk slice; on fetch error or an empty slice return `[]` without
calling the model; otherwise call the model once — empty response yields
`[]`, unparseable response throws, parsed response gets group-scoped IDs. -/
def extractGroupInsights (documentId : String) (groupIndex totalGroups : Nat)
    (env : ExtractEnv) : ExtractOutcome :=
  let _ := totalGroups
  let offset := groupIndex * CHUNKS_PER_GROUP
  let chunks := (env.table.drop offset).take CHUNKS_PER_GROUP
  if env.fetchErr || chunks.length = 0 then ⟨.ok [], 0⟩
  else
    match env.modelResp with
    | .empty => ⟨.ok [], 1⟩
    | .malformed msg => ⟨.error msg, 1⟩
    | .parsed raw => ⟨.ok (assignGroupIdsFrom documentId groupIndex 0 raw), 1⟩

-- ---------- Legacy single-call flow ----------

/-- `getCachedDocumentInsights`: the cache row's content, if present and a
non-empty array. -/
def getCachedDocumentInsights (cacheRow : Option (List Insight)) : Option (List Insight) :=
  match cacheRow with
  | none => none
  | some l => if l.length > 0 then some l else none

/-- Environment of one `generateInsights` run. -/
structure GenEnv where
  cacheRow : Option (List Insight)
  countResult : Except Unit (Option Nat)
  fetchErr : Bool
  table : List ChunkRow
  groupResp : Nat → ModelResp
  mergeResp : ModelResp

/-- `Promise.all` over the per-group results: the first rejection rejects the
whole, otherwise the results are flattened in group order. -/
def collectResults : List (Except String (List Insight)) → Except String (List Insight)
  | [] => .ok []
  | .error e :: _ => .error e
  | .ok l :: rest =>
    match collectResults rest with
    | .error e => .error e
    | .ok ls => .ok (l ++ ls)

/-- `generateInsights(documentId)`: cache check, plan, all groups via
`Promise.all`, then merge-and-cache. -/
def generateInsights (documentId : String) (env : GenEnv) :
    Except String (List Insight) :=
  match getCachedDocumentInsights env.cacheRow with
  | some cached => .ok cached
  | none =>
    match getInsightPlan env.countResult with
    | none => .ok []
    | some plan =>
      match collectResults ((List.range plan.totalGroups).map fun i =>
          (extractGroupInsights documentId i plan.totalGroups
            ⟨env.fetchErr, env.table, env.groupResp i⟩).result) with
      | .error e => .error e
      | .ok allInsights =>
        if allInsights.length = 0 then .ok []
        else (mergeAndCacheInsights documentId allInsights env.mergeResp).result

-- ---------- Processing pipeline ----------

inductive DocStatus where
  | uploading
  | processing
  | ready
  | failed
deriving DecidableEq, Repr

/-- One `updateDocumentStatus` call: the status written and, when supplied,
the `total_pages` payload. -/
structure StatusUpdate where
  status : DocStatus
  totalPages : Option Nat
deriving DecidableEq, Repr

/-- A row inserted into `document_chunks`. -/
structure DbChunkRow where
  document_id : String
  chunk_index : Nat
  content : String
  page_start : Nat
  page_end : Nat
  token_count : Nat
  embedding : Vec
deriving DecidableEq, Repr

inductive ProcResult where
  | success
  | failure (error : String)
deriving DecidableEq, Repr

/-- Environment of one `processDocument` run: whether the document row was
found, the storage download outcome, the text-extraction outcome of the
downloaded bytes (an `Except.error` models a thrown `ExtractionError`), the
embedding service's per-batch responses, and the insert outcome per chunk
batch index. -/
structure ProcEnv where
  docFound : Bool
  downloadResult : Except String Unit
  extractResult : Except String (List PageText × Nat)
  embedResp : List String → EmbedResult
  insertResult : Nat → Option String

structure ProcOutcome where
  result : ProcResult
  statusUpdates : List StatusUpdate
  insertedBatches : List (List DbChunkRow)

/-- Consecutive slices of 50 rows, as in the insert loop. -/
def rowBatches (rows : List DbChunkRow) : List (List DbChunkRow) :=
  if h : rows = [] then []
  else rows.take 50 :: rowBatches (rows.drop 50)
termination_by rows.length
decreasing_by
  have : rows.length ≠ 0 := fun hl => h (List.length_eq_zero.mp hl)
  simp only [List.length_drop]
  omega

/-- The batch-by-batch insert loop: stops at the first failing batch,
returning its error and the batches successfully inserted before it. -/
def insertLoop (insertResult : Nat → Option String) :
    List (List DbChunkRow) → Nat → Option String × List (List DbChunkRow)
  | [], _ => (none, [])
  | b :: rest, idx =>
    match insertResult idx with
    | some e => (some e, [])
    | none =>
      let r := insertLoop insertResult rest (idx + 1)
      (r.1, b :: r.2)

/-- `processDocument(documentId)`: download, extract, chunk, embed, insert in
batches, with the source's early-return failure paths and the top-level
catch mapping any thrown error to `failed`. -/
def processDocument (documentId : String) (env : ProcEnv) : ProcOutcome :=
  if ¬ env.docFound then
    ⟨.failure "Document not found.", [], []⟩
  else
    match env.downloadResult with
    | .error m =>
      ⟨.failure ("Failed to download PDF: " ++ m), [⟨.failed, none⟩], []⟩
    | .ok _ =>
      match env.extractResult with
      | .error m => ⟨.failure m, [⟨.failed, none⟩], []⟩
      | .ok (pages, totalPages) =>
        if pages.length = 0 then
          ⟨.failure "Could not extract any text from the PDF.",
            [⟨.failed, none⟩], []⟩
        else
          let upd1 : List StatusUpdate := [⟨.processing, some totalPages⟩]
          let chunks := chunkText pages
          if chunks.length = 0 then
            ⟨.failure "No text chunks could be generated.",
              upd1 ++ [⟨.failed, none⟩], []⟩
          else
            match generateEmbeddings (chunks.map (fun c => c.content)) env.embedResp with
            | (.error e, _) =>
              ⟨.failure ("Gemini embedding API error (" ++ toString e.status ++
                  "): " ++ e.body),
                upd1 ++ [⟨.failed, none⟩], []⟩
            | (.ok embeddings, _) =>
              let rows := chunks.mapIdx fun i c =>
                ({ document_id := documentId,
                   chunk_index := i,
                   content := c.content,
                   page_start := c.page_start,
                   page_end := c.page_end,
                   token_count := c.token_count,
                   embedding := (embeddings[i]?).getD [] } : DbChunkRow)
              let ins := insertLoop env.insertResult (rowBatches rows) 0
              match ins.1 with
              | some e =>
                ⟨.failure ("Failed to store chunks: " ++ e),
                  upd1 ++ [⟨.failed, none⟩], ins.2⟩
              | none => ⟨.success, upd1 ++ [⟨.ready, none⟩], ins.2⟩

-- ---------- Loop invariants and test fixtures ----------

def c1SampleIns : List Insight :=
  [⟨"old-a", "ta", "da", [⟨3, "Intro", "q"⟩], [⟨"Adjacent Field", "t", "d"⟩]⟩,
   ⟨"old-b", "tb", "db", [], []⟩]

-- C3 sample data: seven distinct candidate insights.
def c3Ins (n : Nat) : Insight := ⟨"raw-" ++ toString n, "t" ++ toString n, "d", [], []⟩

def c3List : List Insight := (List.range 7).map c3Ins

def c10Env : ExtractEnv :=
  ⟨false, [⟨0, "only chunk", 1, 1⟩], .parsed [⟨"t", "d", [], []⟩]⟩

-- C2 sample data: a 12-chunk document (2 groups) where group 0 parses fine
-- and group 1's model response is non-empty but not valid JSON.
def c2Row (n : Nat) : ChunkRow := ⟨n, "chunk " ++ toString n, 1, 1⟩

def c2Env : GenEnv :=
  { cacheRow := none,
    countResult := .ok (some 12),
    fetchErr := false,
    table := (List.range 12).map c2Row,
    groupResp := fun i =>
      if i = 0 then .parsed [⟨"finding", "desc", [], []⟩]
      else .malformed "SyntaxError: Unexpected token",
    mergeResp := .empty }

def c4Env : ProcEnv :=
  { docFound := true,
    downloadResult := .ok (),
    extractResult := .ok ([], 0),
    embedResp := fun _ => .okr [],
    insertResult := fun _ => none }

/-- Total token estimate of a sentence list. -/
def sumTokens (l : List String) : Nat := (l.map estimateTokens).sum

/-- Loop invariant of `chunkText`: finalized chunks have non-decreasing
`page_start`, valid page ranges, and `page_start` at most the pending chunk's
recorded start, which is at most its recorded end. -/
def StateInv (st : ChunkState) : Prop :=
  List.Pairwise (fun c d => c.page_start ≤ d.page_start) st.chunks ∧
  (∀ c ∈ st.chunks, c.page_start ≤ c.page_end) ∧
  (∀ c ∈ st.chunks, c.page_start ≤ st.chunkPageStart) ∧
  st.chunkPageStart ≤ st.chunkPageEnd

def c7Pages : List PageText :=
  [⟨1, "Hello there. How are you?"⟩, ⟨2, "Fine thanks. Bye now."⟩]

-- ---------- Shared helper lemmas ----------

theorem reIdFrom_getElem? (documentId : String) :
    ∀ (l : List Insight) (k i : Nat),
      (reIdFrom documentId k l)[i]? =
        (l[i]?).map fun x => { x with id := insightId documentId (k + i) } := by
  intro l
  induction l with
  | nil => intro k i; simp [reIdFrom]
  | cons a rest ih =>
    intro k i
    cases i with
    | zero => simp [reIdFrom]
    | succ j =>
      simp only [reIdFrom, List.getElem?_cons_succ]
      rw [ih (k + 1) j]
      have : k + 1 + j = k + (j + 1) := by omega
      rw [this]

-- ---------- Claim theorems ----------

/-- C6: for every string `s`, the token estimate equals `ceil(length(s)/4)`
(characterized exactly: it is the least `g` with `length(s) ≤ 4*g`, i.e.
`length(s) ≤ 4*g < length(s)+4`), and the estimate is monotonic in string
length. -/
theorem estimateTokens_ceil_and_mono :
    (∀ s : String,
      s.length ≤ 4 * estimateTokens s ∧ 4 * estimateTokens s < s.length + 4) ∧
    (∀ s1 s2 : String, s1.length ≤ s2.length → estimateTokens s1 ≤ estimateTokens s2) := by
  constructor
  · intro s
    unfold estimateTokens
    omega
  · intro s1 s2 h
    unfold estimateTokens
    omega

theorem estimateTokens_ceil_and_mono_witness :
    ("abcd".length ≤ "abcdefghi".length) ∧
    estimateTokens "abcd" ≤ estimateTokens "abcdefghi" :=
  ⟨by decide, estimateTokens_ceil_and_mono.2 "abcd" "abcdefghi" (by decide)⟩

/-- C5: `getInsightPlan` returns `none` when the count query errors, or the
count is null or zero; otherwise it returns the chunk count together with
`ceil(count/10)` groups (characterized: `(count+9)/10`, the least `g` with
`count ≤ 10*g`). -/
theorem getInsightPlan_spec :
    getInsightPlan (.error ()) = none ∧
    getInsightPlan (.ok none) = none ∧
    getInsightPlan (.ok (some 0)) = none ∧
    (∀ n : Nat, 0 < n →
      getInsightPlan (.ok (some n)) = some ⟨n, (n + 9) / 10⟩ ∧
      n ≤ 10 * ((n + 9) / 10) ∧
      (∀ g : Nat, n ≤ 10 * g → (n + 9) / 10 ≤ g)) := by
  refine ⟨rfl, rfl, rfl, ?_⟩
  intro n hn
  refine ⟨?_, by omega, fun g hg => by omega⟩
  simp only [getInsightPlan, CHUNKS_PER_GROUP]
  rw [if_neg (by omega)]
  have h9 : n + 10 - 1 = n + 9 := by omega
  rw [h9]

theorem getInsightPlan_spec_witness :
    getInsightPlan (.ok (some 25)) = some ⟨25, 3⟩ :=
  (getInsightPlan_spec.2.2.2 25 (by decide)).1

/-- C1: with at most 6 candidate insights, `mergeAndCacheInsights` makes no
model call, returns the input list re-IDed in order as
`insight-{first 8 chars of documentId}-{index}`, and caches that same list;
each element is unchanged except its `id`. -/
theorem merge_small_skip (documentId : String) (l : List Insight) (resp : ModelResp)
    (h : l.length ≤ 6) :
    mergeAndCacheInsights documentId l resp =
      ⟨.ok (reIdFrom documentId 0 l), 0, some (reIdFrom documentId 0 l)⟩ ∧
    ∀ i : Nat, (reIdFrom documentId 0 l)[i]? =
      (l[i]?).map fun x => { x with id := insightId documentId i } := by
  constructor
  · unfold mergeAndCacheInsights
    rw [if_pos h]
  · intro i
    have := reIdFrom_getElem? documentId l 0 i
    simpa using this

theorem merge_small_skip_witness :
    (mergeAndCacheInsights "abcdef123456" c1SampleIns .empty).modelCalls = 0 ∧
    (reIdFrom "abcdef123456" 0 c1SampleIns)[0]? =
      ((c1SampleIns[0]?).map fun x => { x with id := insightId "abcdef123456" 0 }) :=
  ⟨by rw [(merge_small_skip "abcdef123456" c1SampleIns .empty (by decide)).1],
   (merge_small_skip "abcdef123456" c1SampleIns .empty (by decide)).2 0⟩

/-- C3 counterexample: with 7 candidates and a merge response that is
non-empty but not valid JSON, `mergeAndCacheInsights` throws (the `JSON.parse`
exception propagates) and caches nothing — contradicting the claim that a
parse failure caches and returns the re-IDed unmerged list. -/
theorem merge_parse_failure_cex :
    (mergeAndCacheInsights "doc12345" c3List (.malformed "SyntaxError: Unexpected token")).cached
      = none ∧
    (mergeAndCacheInsights "doc12345" c3List (.malformed "SyntaxError: Unexpected token")).result
      = .error "SyntaxError: Unexpected token" := by
  exact ⟨rfl, rfl⟩

/-- C3 (amended): with more than 6 candidates, an *empty* merge response is
the non-fatal degraded path — the unmerged candidate list re-IDed
sequentially is cached and returned; a response that fails to parse as JSON
instead throws out of `mergeAndCacheInsights` with nothing cached. -/
theorem merge_degraded_paths (documentId : String) (l : List Insight) (msg : String)
    (h : 6 < l.length) :
    mergeAndCacheInsights documentId l .empty =
      ⟨.ok (reIdFrom documentId 0 l), 1, some (reIdFrom documentId 0 l)⟩ ∧
    mergeAndCacheInsights documentId l (.malformed msg) = ⟨.error msg, 1, none⟩ := by
  unfold mergeAndCacheInsights
  rw [if_neg (by omega), if_neg (by omega)]
  exact ⟨rfl, rfl⟩

theorem merge_degraded_paths_witness :
    mergeAndCacheInsights "doc12345" c3List .empty =
      ⟨.ok (reIdFrom "doc12345" 0 c3List), 1, some (reIdFrom "doc12345" 0 c3List)⟩ :=
  (merge_degraded_paths "doc12345" c3List "m" (by decide)).1

/-- C10: when the chunk fetch errors, or the requested group range holds no
chunk rows (in particular when `groupIndex` is at or beyond the last group),
`extractGroupInsights` returns the empty list and makes no model call. -/
theorem extractGroup_no_rows (documentId : String) (groupIndex totalGroups : Nat)
    (env : ExtractEnv)
    (h : env.fetchErr = true ∨
      (env.table.drop (groupIndex * CHUNKS_PER_GROUP)).take CHUNKS_PER_GROUP = []) :
    extractGroupInsights documentId groupIndex totalGroups env = ⟨.ok [], 0⟩ ∧
    (env.table.length ≤ groupIndex * CHUNKS_PER_GROUP →
      (env.table.drop (groupIndex * CHUNKS_PER_GROUP)).take CHUNKS_PER_GROUP = []) := by
  constructor
  case right =>
    intro hlen
    rw [List.drop_eq_nil_of_le hlen, List.take_nil]
  case left =>
    rcases h with hf | hempty
    · simp [extractGroupInsights, hf]
    · simp [extractGroupInsights, hempty]

theorem extractGroup_no_rows_witness :
    extractGroupInsights "doc12345" 2 3 c10Env = ⟨.ok [], 0⟩ :=
  (extractGroup_no_rows "doc12345" 2 3 c10Env (Or.inr (by decide))).1

/-- C2 counterexample: a group whose model response is non-empty but not
valid JSON makes `extractGroupInsights` throw rather than surface zero
insights, and the legacy flow fails as a whole instead of continuing with
the other groups (here group 0 succeeded, yet `generateInsights` errors). -/
theorem extract_parse_failure_cex :
    (extractGroupInsights "doc12345" 1 2
        ⟨false, (List.range 12).map c2Row, .malformed "SyntaxError: Unexpected token"⟩).result
      = .error "SyntaxError: Unexpected token" ∧
    generateInsights "doc12345" c2Env = .error "SyntaxError: Unexpected token" := by
  exact ⟨rfl, rfl⟩

/-- Reduction of `extractGroupInsights` on a non-empty group slice with a
successful fetch: the model is called once and the response decides the
outcome. -/
theorem extractGroup_reduce (documentId : String) (groupIndex totalGroups : Nat)
    (env : ExtractEnv)
    (hf : env.fetchErr = false)
    (hc : (env.table.drop (groupIndex * CHUNKS_PER_GROUP)).take CHUNKS_PER_GROUP ≠ []) :
    extractGroupInsights documentId groupIndex totalGroups env =
      match env.modelResp with
      | .empty => ⟨.ok [], 1⟩
      | .malformed msg => ⟨.error msg, 1⟩
      | .parsed raw => ⟨.ok (assignGroupIdsFrom documentId groupIndex 0 raw), 1⟩ := by
  have hlen : ((env.table.drop (groupIndex * CHUNKS_PER_GROUP)).take
      CHUNKS_PER_GROUP).length ≠ 0 :=
    fun h0 => hc (List.length_eq_zero.mp h0)
  have hb : (env.fetchErr ||
      decide (((env.table.drop (groupIndex * CHUNKS_PER_GROUP)).take
        CHUNKS_PER_GROUP).length = 0)) = false := by
    rw [hf]
    simp only [Bool.false_or, decide_eq_false_iff_not]
    exact hlen
  simp only [extractGroupInsights]
  rw [hb]
  rfl

/-- C2 (amended): an *empty* extraction response surfaces as zero insights
for the group; a non-empty response that fails to parse as JSON throws out of
`extractGroupInsights`, and in `generateInsights` (`Promise.all` over the
groups) such an error rejects the whole flow rather than continuing. -/
theorem extract_malformed_throws (documentId : String) (groupIndex totalGroups : Nat)
    (env : ExtractEnv) (msg : String)
    (hf : env.fetchErr = false)
    (hc : (env.table.drop (groupIndex * CHUNKS_PER_GROUP)).take CHUNKS_PER_GROUP ≠ []) :
    extractGroupInsights documentId groupIndex totalGroups
        { env with modelResp := .empty } = ⟨.ok [], 1⟩ ∧
    extractGroupInsights documentId groupIndex totalGroups
        { env with modelResp := .malformed msg } = ⟨.error msg, 1⟩ ∧
    (∀ genv : GenEnv, ∀ p : InsightPlan,
      getCachedDocumentInsights genv.cacheRow = none →
      getInsightPlan genv.countResult = some p →
      0 < p.totalGroups →
      genv.fetchErr = false →
      genv.table.take CHUNKS_PER_GROUP ≠ [] →
      genv.groupResp 0 = .malformed msg →
      generateInsights documentId genv = .error msg) := by
  refine ⟨?_, ?_, ?_⟩
  · rw [extractGroup_reduce documentId groupIndex totalGroups
      { env with modelResp := .empty } hf hc]
  · rw [extractGroup_reduce documentId groupIndex totalGroups
      { env with modelResp := .malformed msg } hf hc]
  · intro genv p hcache hplan hpos hgf hgt hg0
    obtain ⟨k, hk⟩ : ∃ k, p.totalGroups = k + 1 :=
      ⟨p.totalGroups - 1, by omega⟩
    have hc0 : (genv.table.drop (0 * CHUNKS_PER_GROUP)).take CHUNKS_PER_GROUP ≠ [] := by
      simpa using hgt
    have h0 : (extractGroupInsights documentId 0 p.totalGroups
        ⟨genv.fetchErr, genv.table, genv.groupResp 0⟩).result = .error msg := by
      rw [extractGroup_reduce documentId 0 p.totalGroups _ hgf hc0, hg0]
    simp only [generateInsights, hcache, hplan]
    rw [hk] at h0 ⊢
    simp only [List.range_succ_eq_map, List.map_cons]
    rw [h0]
    rfl

theorem extract_malformed_throws_witness :
    extractGroupInsights "doc12345" 1 2
        { (⟨false, (List.range 12).map c2Row, .empty⟩ : ExtractEnv) with modelResp := .empty }
      = ⟨.ok [], 1⟩ :=
  (extract_malformed_throws "doc12345" 1 2
    ⟨false, (List.range 12).map c2Row, .empty⟩ "m" rfl (by decide)).1

-- ---------- C9 supporting lemmas ----------

theorem embedBatches_flatten (texts : List String) :
    (embedBatches texts).flatten = texts := by
  rw [embedBatches]
  by_cases h : texts = []
  · simp [h]
  · rw [dif_neg h]
    have ih := embedBatches_flatten (texts.drop EMBEDDING_BATCH_SIZE)
    simp [ih]
termination_by texts.length
decreasing_by
  have : texts.length ≠ 0 := fun hl => h (List.length_eq_zero.mp hl)
  simp only [List.length_drop, EMBEDDING_BATCH_SIZE]
  omega

theorem embedBatches_sizes (texts : List String) :
    ∀ b ∈ embedBatches texts, b.length ≤ EMBEDDING_BATCH_SIZE ∧ b ≠ [] := by
  rw [embedBatches]
  by_cases h : texts = []
  · simp [h]
  · rw [dif_neg h]
    intro b hb
    rcases List.mem_cons.mp hb with hhead | htail
    · subst hhead
      refine ⟨List.length_take_le _ _, ?_⟩
      intro hnil
      rcases (List.take_eq_nil_iff).mp hnil with h20 | hmt
      · exact absurd h20 (by simp [EMBEDDING_BATCH_SIZE])
      · exact h hmt
    · exact embedBatches_sizes (texts.drop EMBEDDING_BATCH_SIZE) b htail
termination_by texts.length
decreasing_by
  have : texts.length ≠ 0 := fun hl => h (List.length_eq_zero.mp hl)
  simp only [List.length_drop, EMBEDDING_BATCH_SIZE]
  omega

theorem embedBatches_cons (texts : List String) (h : texts ≠ []) :
    embedBatches texts =
      texts.take EMBEDDING_BATCH_SIZE ::
        embedBatches (texts.drop EMBEDDING_BATCH_SIZE) := by
  rw [embedBatches]
  rw [dif_neg h]

theorem genEmb_nil (resp : List String → EmbedResult) :
    generateEmbeddings [] resp = (.ok [], []) := by
  rw [generateEmbeddings]
  simp

theorem genEmb_cons_err (texts : List String) (resp : List String → EmbedResult)
    (e : EmbedError) (h : texts ≠ [])
    (hr : resp (texts.take EMBEDDING_BATCH_SIZE) = .err e) :
    generateEmbeddings texts resp = (.error e, [texts.take EMBEDDING_BATCH_SIZE]) := by
  rw [generateEmbeddings, dif_neg h, hr]

theorem genEmb_cons_ok_err (texts : List String) (resp : List String → EmbedResult)
    (vecs : List Vec) (e : EmbedError) (reqs : List (List String)) (h : texts ≠ [])
    (hr : resp (texts.take EMBEDDING_BATCH_SIZE) = .okr vecs)
    (hrest : generateEmbeddings (texts.drop EMBEDDING_BATCH_SIZE) resp = (.error e, reqs)) :
    generateEmbeddings texts resp =
      (.error e, texts.take EMBEDDING_BATCH_SIZE :: reqs) := by
  rw [generateEmbeddings, dif_neg h, hr, hrest]

theorem genEmb_cons_ok_ok (texts : List String) (resp : List String → EmbedResult)
    (vecs : List Vec) (vs : List Vec) (reqs : List (List String)) (h : texts ≠ [])
    (hr : resp (texts.take EMBEDDING_BATCH_SIZE) = .okr vecs)
    (hrest : generateEmbeddings (texts.drop EMBEDDING_BATCH_SIZE) resp = (.ok vs, reqs)) :
    generateEmbeddings texts resp =
      (.ok (vecs ++ vs), texts.take EMBEDDING_BATCH_SIZE :: reqs) := by
  rw [generateEmbeddings, dif_neg h, hr, hrest]

theorem generateEmbeddings_perfect (texts : List String) (E : String → Vec) :
    generateEmbeddings texts (fun b => .okr (b.map E)) =
      (.ok (texts.map E), embedBatches texts) := by
  by_cases h : texts = []
  · subst h
    rw [genEmb_nil, embedBatches]
    simp
  · have ih := generateEmbeddings_perfect (texts.drop EMBEDDING_BATCH_SIZE) E
    rw [genEmb_cons_ok_ok texts _ ((texts.take EMBEDDING_BATCH_SIZE).map E)
      ((texts.drop EMBEDDING_BATCH_SIZE).map E) (embedBatches (texts.drop EMBEDDING_BATCH_SIZE))
      h rfl ih]
    rw [← List.map_append, List.take_append_drop, embedBatches_cons texts h]
termination_by texts.length
decreasing_by
  have : texts.length ≠ 0 := fun hl => h (List.length_eq_zero.mp hl)
  simp only [List.length_drop, EMBEDDING_BATCH_SIZE]
  omega

theorem generateEmbeddings_error_from_resp (texts : List String)
    (resp : List String → EmbedResult) (e : EmbedError)
    (he : (generateEmbeddings texts resp).1 = .error e) :
    ∃ b ∈ (generateEmbeddings texts resp).2, resp b = .err e := by
  by_cases h : texts = []
  · subst h
    rw [genEmb_nil] at he
    exact absurd he (by simp)
  · rcases hr : resp (texts.take EMBEDDING_BATCH_SIZE) with vecs | e'
    · rcases hrest : generateEmbeddings (texts.drop EMBEDDING_BATCH_SIZE) resp with ⟨res, reqs⟩
      rcases res with e'' | vs
      · rw [genEmb_cons_ok_err texts resp vecs e'' reqs h hr hrest] at he ⊢
        have hee : e'' = e := by
          simpa using he
        subst hee
        obtain ⟨b, hb, hbr⟩ :=
          generateEmbeddings_error_from_resp (texts.drop EMBEDDING_BATCH_SIZE) resp e''
            (by rw [hrest])
        rw [hrest] at hb
        exact ⟨b, List.mem_cons_of_mem _ hb, hbr⟩
      · rw [genEmb_cons_ok_ok texts resp vecs vs reqs h hr hrest] at he
        exact absurd he (by simp)
    · rw [genEmb_cons_err texts resp e' h hr] at he ⊢
      have hee : e' = e := by
        simpa using he
      subst hee
      exact ⟨texts.take EMBEDDING_BATCH_SIZE, by simp, hr⟩
termination_by texts.length
decreasing_by
  have : texts.length ≠ 0 := fun hl => h (List.length_eq_zero.mp hl)
  simp only [List.length_drop, EMBEDDING_BATCH_SIZE]
  omega

theorem generateEmbeddings_requests_schedule (texts : List String)
    (resp : List String → EmbedResult) :
    ∃ k, (generateEmbeddings texts resp).2 = (embedBatches texts).take k := by
  by_cases h : texts = []
  · subst h
    refine ⟨0, ?_⟩
    rw [genEmb_nil]
    simp
  · rcases hr : resp (texts.take EMBEDDING_BATCH_SIZE) with vecs | e'
    · obtain ⟨k, hk⟩ :=
        generateEmbeddings_requests_schedule (texts.drop EMBEDDING_BATCH_SIZE) resp
      rcases hrest : generateEmbeddings (texts.drop EMBEDDING_BATCH_SIZE) resp with ⟨res, reqs⟩
      have hk2 : reqs = (embedBatches (texts.drop EMBEDDING_BATCH_SIZE)).take k := by
        rw [hrest] at hk
        exact hk
      refine ⟨k + 1, ?_⟩
      rw [embedBatches_cons texts h, List.take_succ_cons]
      rcases res with e'' | vs
      · rw [genEmb_cons_ok_err texts resp vecs e'' reqs h hr hrest]
        show texts.take EMBEDDING_BATCH_SIZE :: reqs =
          texts.take EMBEDDING_BATCH_SIZE ::
            (embedBatches (texts.drop EMBEDDING_BATCH_SIZE)).take k
        rw [hk2]
      · rw [genEmb_cons_ok_ok texts resp vecs vs reqs h hr hrest]
        show texts.take EMBEDDING_BATCH_SIZE :: reqs =
          texts.take EMBEDDING_BATCH_SIZE ::
            (embedBatches (texts.drop EMBEDDING_BATCH_SIZE)).take k
        rw [hk2]
    · refine ⟨1, ?_⟩
      rw [embedBatches_cons texts h, List.take_succ_cons, List.take_zero]
      rw [genEmb_cons_err texts resp e' h hr]
termination_by texts.length
decreasing_by
  have : texts.length ≠ 0 := fun hl => h (List.length_eq_zero.mp hl)
  simp only [List.length_drop, EMBEDDING_BATCH_SIZE]
  omega

/-- C9: `generateEmbeddings` issues consecutive batches of at most 20 texts
in input order (the issued requests are always a prefix of that schedule, so
there is no reordering and no retry); with a well-behaved service it returns
the vector list index-aligned with the input; and any non-success response
surfaces as an error carrying that response's HTTP status and body. -/
theorem generateEmbeddings_spec :
    (∀ (texts : List String) (E : String → Vec),
      generateEmbeddings texts (fun b => .okr (b.map E)) =
        (.ok (texts.map E), embedBatches texts)) ∧
    (∀ texts : List String, (embedBatches texts).flatten = texts ∧
      ∀ b ∈ embedBatches texts, b.length ≤ EMBEDDING_BATCH_SIZE ∧ b ≠ []) ∧
    (∀ (texts : List String) (resp : List String → EmbedResult) (e : EmbedError),
      (generateEmbeddings texts resp).1 = .error e →
      ∃ b ∈ (generateEmbeddings texts resp).2, resp b = .err e) ∧
    (∀ (texts : List String) (resp : List String → EmbedResult),
      ∃ k, (generateEmbeddings texts resp).2 = (embedBatches texts).take k) :=
  ⟨generateEmbeddings_perfect,
   fun texts => ⟨embedBatches_flatten texts, embedBatches_sizes texts⟩,
   generateEmbeddings_error_from_resp,
   generateEmbeddings_requests_schedule⟩

theorem generateEmbeddings_spec_witness :
    (generateEmbeddings ["a", "bb", "c"]
        (fun b => .okr (b.map fun s => [(s.length : Int)])) =
      (.ok [[1], [2], [1]], embedBatches ["a", "bb", "c"])) ∧
    ∃ b ∈ (generateEmbeddings ["a", "b"] (fun _ => .err ⟨500, "boom"⟩)).2,
      (fun (_ : List String) => EmbedResult.err ⟨500, "boom"⟩) b = .err ⟨500, "boom"⟩ :=
  ⟨generateEmbeddings_spec.1 ["a", "bb", "c"] (fun s => [(s.length : Int)]),
   generateEmbeddings_spec.2.2.1 ["a", "b"] (fun _ => .err ⟨500, "boom"⟩)
     ⟨500, "boom"⟩
     (by rw [genEmb_cons_err ["a", "b"] _ ⟨500, "boom"⟩ (by simp) rfl])⟩

/-- C4: if text extraction yields zero pages, `processDocument` returns a
failure with an error message, the document's status is set to `failed`, and
the chunk-insertion stage is never reached — zero chunk rows are persisted. -/
theorem processDocument_zero_pages (documentId : String) (env : ProcEnv) (n : Nat)
    (hd : env.docFound = true)
    (hdl : env.downloadResult = .ok ())
    (he : env.extractResult = .ok ([], n)) :
    processDocument documentId env =
      ⟨.failure "Could not extract any text from the PDF.",
        [⟨.failed, none⟩], []⟩ := by
  unfold processDocument
  rw [hd, hdl, he]
  simp

theorem processDocument_zero_pages_witness :
    processDocument "doc-empty" c4Env =
      ⟨.failure "Could not extract any text from the PDF.",
        [⟨.failed, none⟩], []⟩ :=
  processDocument_zero_pages "doc-empty" c4Env 0 rfl rfl rfl

-- ---------- C7/C8 supporting lemmas ----------

theorem sumTokens_cons (s : String) (l : List String) :
    sumTokens (s :: l) = estimateTokens s + sumTokens l := by
  simp [sumTokens]

theorem overlapWalk_spec (l : List String) :
    ∃ k, k ≤ l.length ∧
      (overlapWalk l).1 = l.drop k ∧
      (overlapWalk l).2 = sumTokens (l.drop k) ∧
      (overlapWalk l).2 ≤ CHUNK_OVERLAP ∧
      ∀ j, j < k → sumTokens (l.drop j) > CHUNK_OVERLAP := by
  induction l with
  | nil =>
    exact ⟨0, by simp, rfl, by simp [overlapWalk, sumTokens],
      by simp [overlapWalk, CHUNK_OVERLAP], fun j hj => by omega⟩
  | cons s rest ih =>
    obtain ⟨k, hk, h1, h2, h3, h4⟩ := ih
    have hw1len : (overlapWalk rest).1.length = rest.length - k := by
      rw [h1, List.length_drop]
    by_cases hlen : (overlapWalk rest).1.length = rest.length
    · have hk0 : k = 0 := by omega
      subst hk0
      have h1' : (overlapWalk rest).1 = rest := by simpa using h1
      have h2' : (overlapWalk rest).2 = sumTokens rest := by simpa using h2
      by_cases hov : (overlapWalk rest).2 + estimateTokens s > CHUNK_OVERLAP
      · have heq : overlapWalk (s :: rest) = overlapWalk rest := by
          simp only [overlapWalk]
          rw [if_pos hlen, if_pos hov]
        refine ⟨1, by simp, ?_, ?_, ?_, ?_⟩
        · rw [heq, h1']
          simp
        · rw [heq, h2']
          simp
        · rw [heq]
          exact h3
        · intro j hj
          have hj0 : j = 0 := by omega
          subst hj0
          rw [h2'] at hov
          simp only [List.drop_zero]
          rw [sumTokens_cons]
          omega
      · have heq : overlapWalk (s :: rest) =
            (s :: (overlapWalk rest).1, (overlapWalk rest).2 + estimateTokens s) := by
          simp only [overlapWalk]
          rw [if_pos hlen, if_neg hov]
        refine ⟨0, by simp, ?_, ?_, ?_, fun j hj => by omega⟩
        · rw [heq]
          show s :: (overlapWalk rest).1 = (s :: rest).drop 0
          rw [h1']
          simp
        · rw [heq]
          show (overlapWalk rest).2 + estimateTokens s = sumTokens ((s :: rest).drop 0)
          rw [h2']
          simp only [List.drop_zero]
          rw [sumTokens_cons]
          omega
        · rw [heq]
          show (overlapWalk rest).2 + estimateTokens s ≤ CHUNK_OVERLAP
          omega
    · have heq : overlapWalk (s :: rest) = overlapWalk rest := by
        simp only [overlapWalk]
        rw [if_neg hlen]
      have hk1 : 1 ≤ k := by
        rw [hw1len] at hlen
        omega
      refine ⟨k + 1, by simp; omega, ?_, ?_, ?_, ?_⟩
      · rw [heq, h1, List.drop_succ_cons]
      · rw [heq, h2, List.drop_succ_cons]
      · rw [heq]
        exact h3
      · intro j hj
        cases j with
        | zero =>
          simp only [List.drop_zero]
          rw [sumTokens_cons]
          have h40 := h4 0 (by omega)
          simp only [List.drop_zero] at h40
          omega
        | succ j' =>
          rw [List.drop_succ_cons]
          exact h4 j' (by omega)

/-- C8: when `chunkText` finalizes a chunk, the next chunk is seeded with the
trailing slice of the finalized chunk's sentences selected by the backward
overlap walk — the maximal trailing run whose token-estimate sum stays within
the overlap budget (any strictly longer trailing run exceeds it) — and the
new chunk's running token count starts at that slice's estimate sum (the
triggering sentence is then appended on top of the seed). -/
theorem chunk_overlap_seed (st : ChunkState) (s : Sentence)
    (hbig : st.currentTokens + estimateTokens s.text > CHUNK_SIZE)
    (hne : st.currentChunk.length > 0) :
    (stepSentence st s).currentChunk = (overlapWalk st.currentChunk).1 ++ [s.text] ∧
    (stepSentence st s).currentTokens =
      (overlapWalk st.currentChunk).2 + estimateTokens s.text ∧
    ∃ k, k ≤ st.currentChunk.length ∧
      (overlapWalk st.currentChunk).1 = st.currentChunk.drop k ∧
      (overlapWalk st.currentChunk).2 = sumTokens (st.currentChunk.drop k) ∧
      (overlapWalk st.currentChunk).2 ≤ CHUNK_OVERLAP ∧
      ∀ j, j < k → sumTokens (st.currentChunk.drop j) > CHUNK_OVERLAP := by
  refine ⟨?_, ?_, overlapWalk_spec st.currentChunk⟩
  · simp only [stepSentence]
    rw [if_pos ⟨hbig, hne⟩]
  · simp only [stepSentence]
    rw [if_pos ⟨hbig, hne⟩]

theorem chunk_overlap_seed_witness :
    (stepSentence ⟨[], ["aaaa"], 900, 1, 1⟩ ⟨"bb", 2⟩).currentChunk =
      (overlapWalk ["aaaa"]).1 ++ ["bb"] ∧
    (stepSentence ⟨[], ["aaaa"], 900, 1, 1⟩ ⟨"bb", 2⟩).currentTokens =
      (overlapWalk ["aaaa"]).2 + estimateTokens "bb" :=
  ⟨(chunk_overlap_seed ⟨[], ["aaaa"], 900, 1, 1⟩ ⟨"bb", 2⟩ (by decide) (by decide)).1,
   (chunk_overlap_seed ⟨[], ["aaaa"], 900, 1, 1⟩ ⟨"bb", 2⟩ (by decide) (by decide)).2.1⟩

-- ---------- C7 supporting lemmas ----------

theorem mem_pageSentences (pt : PageText) :
    ∀ x ∈ pageSentences pt, x.page = pt.page := by
  intro x hx
  rw [pageSentences, List.mem_filterMap] at hx
  obtain ⟨part, _, hg⟩ := hx
  split at hg
  · cases hg
    rfl
  · simp at hg

theorem mem_buildSentences_page (pages : List PageText) :
    ∀ s ∈ buildSentences pages, ∃ pt ∈ pages, s.page = pt.page := by
  intro s hs
  rw [buildSentences, List.mem_flatMap] at hs
  obtain ⟨pt, hpt, hmem⟩ := hs
  exact ⟨pt, hpt, mem_pageSentences pt s hmem⟩

theorem pairwise_of_const_page (pg : Nat) :
    ∀ l : List Sentence, (∀ x ∈ l, x.page = pg) →
      List.Pairwise (fun a b => a.page ≤ b.page) l := by
  intro l
  induction l with
  | nil => intro _; exact List.Pairwise.nil
  | cons a rest ih =>
    intro h
    refine List.Pairwise.cons ?_ (ih fun x hx => h x (List.mem_cons_of_mem _ hx))
    intro b hb
    rw [h a (by simp), h b (List.mem_cons_of_mem _ hb)]

theorem buildSentences_pairwise (pages : List PageText)
    (h : List.Pairwise (fun a b => a.page ≤ b.page) pages) :
    List.Pairwise (fun a b => a.page ≤ b.page) (buildSentences pages) := by
  induction pages with
  | nil => simp [buildSentences]
  | cons p ps ih =>
    rw [List.pairwise_cons] at h
    obtain ⟨hhead, htail⟩ := h
    have hrec := ih htail
    rw [buildSentences, List.flatMap_cons, List.pairwise_append]
    refine ⟨pairwise_of_const_page p.page _ (mem_pageSentences p), ?_, ?_⟩
    · rw [buildSentences] at hrec
      exact hrec
    · intro a ha b hb
      have hap := mem_pageSentences p a ha
      have hb' : b ∈ buildSentences ps := by
        rw [buildSentences]
        exact hb
      obtain ⟨pt, hpt, hbp⟩ := mem_buildSentences_page ps b hb'
      rw [hap, hbp]
      exact hhead pt hpt

theorem stepSentence_inv (st : ChunkState) (s : Sentence)
    (hinv : StateInv st) (hp : st.chunkPageEnd ≤ s.page) :
    StateInv (stepSentence st s) ∧ (stepSentence st s).chunkPageEnd = s.page := by
  obtain ⟨hpw, hpe, hps, hse⟩ := hinv
  simp only [stepSentence]
  by_cases hfin : st.currentTokens + estimateTokens s.text > CHUNK_SIZE ∧
      st.currentChunk.length > 0
  · rw [if_pos hfin]
    refine ⟨⟨?_, ?_, ?_, le_refl _⟩, trivial⟩
    · rw [List.pairwise_append]
      refine ⟨hpw, List.pairwise_singleton _ _, ?_⟩
      intro a ha b hb
      rw [List.mem_singleton] at hb
      subst hb
      exact hps a ha
    · intro c hc
      rcases List.mem_append.mp hc with hc' | hc'
      · exact hpe c hc'
      · rw [List.mem_singleton] at hc'
        subst hc'
        exact hse
    · intro c hc
      rcases List.mem_append.mp hc with hc' | hc'
      · exact le_trans (hps c hc') (le_trans hse hp)
      · rw [List.mem_singleton] at hc'
        subst hc'
        exact le_trans hse hp
  · rw [if_neg hfin]
    exact ⟨⟨hpw, hpe, hps, le_trans hse hp⟩, trivial⟩

theorem chunkLoop_inv : ∀ (sents : List Sentence) (st : ChunkState),
    StateInv st →
    List.Pairwise (fun a b => a.page ≤ b.page) sents →
    (∀ x ∈ sents, st.chunkPageEnd ≤ x.page) →
    StateInv (chunkLoop st sents) := by
  intro sents
  induction sents with
  | nil => intro st h _ _; exact h
  | cons s rest ih =>
    intro st hinv hpw hge
    rw [chunkLoop]
    obtain ⟨hstep, hend⟩ := stepSentence_inv st s hinv (hge s (by simp))
    refine ih _ hstep (List.pairwise_cons.mp hpw).2 ?_
    intro x hx
    rw [hend]
    exact (List.pairwise_cons.mp hpw).1 x hx

/-- C7: on input pages with non-decreasing page numbers, the chunk sequence
produced by `chunkText` has non-decreasing `page_start` across positions
(`Pairwise` over the output list), and every chunk has
`page_start ≤ page_end`. -/
theorem chunkText_page_mono (pages : List PageText)
    (h : List.Pairwise (fun a b => a.page ≤ b.page) pages) :
    (∀ (i j : Fin (chunkText pages).length), (i : Nat) < (j : Nat) →
      ((chunkText pages).get i).page_start ≤ ((chunkText pages).get j).page_start) ∧
    ∀ c ∈ chunkText pages, c.page_start ≤ c.page_end := by
  suffices hsuff :
      List.Pairwise (fun c d => c.page_start ≤ d.page_start) (chunkText pages) ∧
      ∀ c ∈ chunkText pages, c.page_start ≤ c.page_end by
    exact ⟨fun i j hij => (List.pairwise_iff_get.mp hsuff.1) i j hij, hsuff.2⟩
  have hspw := buildSentences_pairwise pages h
  unfold chunkText
  cases hs : buildSentences pages with
  | nil => simp
  | cons s0 rest =>
    rw [hs] at hspw
    simp only []
    have hinv0 : StateInv ⟨[], [], 0, s0.page, s0.page⟩ := by
      refine ⟨List.Pairwise.nil, ?_, ?_, le_refl _⟩ <;> intro c hc <;> simp at hc
    have hpre : ∀ x ∈ s0 :: rest,
        (⟨[], [], 0, s0.page, s0.page⟩ : ChunkState).chunkPageEnd ≤ x.page := by
      intro x hx
      rcases List.mem_cons.mp hx with rfl | hx'
      · exact le_refl _
      · exact (List.pairwise_cons.mp hspw).1 x hx'
    obtain ⟨hpw, hpe, hps, hse⟩ :=
      chunkLoop_inv (s0 :: rest) ⟨[], [], 0, s0.page, s0.page⟩ hinv0 hspw hpre
    by_cases hcc : (chunkLoop ⟨[], [], 0, s0.page, s0.page⟩ (s0 :: rest)).currentChunk.length > 0
    · rw [if_pos hcc]
      constructor
      · rw [List.pairwise_append]
        refine ⟨hpw, List.pairwise_singleton _ _, ?_⟩
        intro a ha b hb
        rw [List.mem_singleton] at hb
        subst hb
        exact hps a ha
      · intro c hc
        rcases List.mem_append.mp hc with hc' | hc'
        · exact hpe c hc'
        · rw [List.mem_singleton] at hc'
          subst hc'
          exact hse
    · rw [if_neg hcc]
      exact ⟨hpw, hpe⟩

theorem chunkText_page_mono_witness :
    List.Pairwise (fun a b => a.page ≤ b.page) c7Pages ∧
    (⟨"Hello there. How are you? Fine thanks. Bye now.", 1, 2, 12⟩ : TextChunk).page_start ≤
      (⟨"Hello there. How are you? Fine thanks. Bye now.", 1, 2, 12⟩ : TextChunk).page_end :=
  ⟨by decide,
   (chunkText_page_mono c7Pages (by decide)).2
     ⟨"Hello there. How are you? Fine thanks. Bye now.", 1, 2, 12⟩ (by decide)⟩

end UPDF
